import Mathlib

/-!
Verification of the fluence.js signing core against its specification.

The development shallowly embeds the TypeScript sources:
  - src/signer.ts   (Web3StarkSigner: key derivation, Pedersen hash fold, curve signing)
  - src/nonce.ts    (TimestampNonce)
  - src/fluence_client.ts / src/fluence.ts (parseN, sha1n, request builders)
together with the observable behaviour of the third-party libraries they
call (bn.js number/string construction and decimal rendering, crypto-js
SHA-1).  Machine arithmetic is modelled on Nat/Int with explicit `% 2 ^ w`.
-/

namespace Fluence

/-! ## bn.js character model

`new BN(string, base)` in bn.js v5 first strips all whitespace
(`number.toString().replace` of the whitespace class with the empty
string), then consumes an optional leading minus sign, and then parses the
remaining characters.  Base-16 parsing maps characters through
`parseHex4Bits` (throwing on anything that is not 0-9/a-f/A-F); base-10
parsing maps characters through the `parseBase` digit computation and
throws when the resulting digit value is not below the base. -/

/-- The characters matched by the JavaScript regexp class `\s` used by
bn.js to strip whitespace from numeric strings: tab, LF, VT, FF, CR,
space, no-break space (U+00A0), Ogham space mark (U+1680), the U+2000 to
U+200A spaces, line separator (U+2028), paragraph separator (U+2029),
narrow no-break space (U+202F), medium mathematical space (U+205F),
ideographic space (U+3000) and the byte-order mark (U+FEFF). -/
def isJsWhitespace (c : Char) : Bool :=
  c.toNat = 32 || c.toNat = 9 || c.toNat = 10 || c.toNat = 11 || c.toNat = 12 ||
  c.toNat = 13 || c.toNat = 160 || c.toNat = 5760 ||
  (8192 ≤ c.toNat && c.toNat ≤ 8202) || c.toNat = 8232 || c.toNat = 8233 ||
  c.toNat = 8239 || c.toNat = 8287 || c.toNat = 12288 || c.toNat = 65279

/-- Digit value of a character under bn.js `parseHex4Bits`: 0-9, a-f, A-F;
`none` models the `Invalid character` assertion throw. -/
def hex4Bits (c : Char) : Option Nat :=
  if 48 ≤ c.toNat ∧ c.toNat ≤ 57 then some (c.toNat - 48)
  else if 65 ≤ c.toNat ∧ c.toNat ≤ 70 then some (c.toNat - 55)
  else if 97 ≤ c.toNat ∧ c.toNat ≤ 102 then some (c.toNat - 87)
  else none

/-- The candidate digit value `b` computed by bn.js `parseBase` for one
character: `c' = code - 48`; lowercase letters (`c' >= 49`) and uppercase
letters (`c' >= 17`) are folded to values 10 and up. -/
def baseDigitVal (c : Char) : Nat :=
  if c.toNat - 48 ≥ 49 then c.toNat - 48 - 49 + 10
  else if c.toNat - 48 ≥ 17 then c.toNat - 48 - 17 + 10
  else c.toNat - 48

/-- Digit value of a character under the bn.js `parseBase` computation:
the parse asserts `c' >= 0 && b < base`.  `none` models the assertion
throw. -/
def baseDigit (base : Nat) (c : Char) : Option Nat :=
  if c.toNat < 48 then none
  else if baseDigitVal c < base then some (baseDigitVal c) else none

/-- Which digit map bn.js uses for a base: `_parseHex` for 16, `_parseBase`
otherwise. -/
def bnDigit (base : Nat) (c : Char) : Option Nat :=
  if base = 16 then hex4Bits c else baseDigit base c

/-- Positional accumulation of a digit string.  bn.js consumes the digits
in limb-sized groups (`imuln`/`_iaddn` for base 10, 4-bit steps from the
end for base 16) but the accumulated integer value is exactly the standard
positional value computed here; any invalid character aborts the parse. -/
def parseDigitsAux (base : Nat) (digit : Char → Option Nat) : Nat → List Char → Option Nat
  | acc, [] => some acc
  | acc, c :: cs =>
    match digit c with
    | none => none
    | some b => parseDigitsAux base digit (acc * base + b) cs

/-- Split an optional leading minus sign, as `_init` does before parsing
the digits. -/
def splitNeg (l : List Char) : Bool × List Char :=
  match l with
  | [] => (false, [])
  | c :: r => if c = '-' then (true, r) else (false, c :: r)

/-- `new BN(s, base)` on a string, as an `Option` (modelling the
`Invalid character` throw and, for a sign/whitespace-only string, the
corrupt words-null object that cannot be used as a value).

The empty string is falsy in JavaScript, so the BN constructor replaces it
by the number 0 (`number || 0`) before `_init` runs. -/
def jsNewBN (base : Nat) (l : List Char) : Option Int :=
  if l = [] then some 0
  else
    let nd := splitNeg (l.filter (fun c => !(isJsWhitespace c)))
    if nd.2 = [] then none
    else (parseDigitsAux base (bnDigit base) 0 nd.2).map
      (fun n => if nd.1 then -(n : Int) else (n : Int))

/-- JavaScript `toLowerCase` on one character, restricted to ASCII (the
only case that can produce the `0x` prefix test's characters). -/
def jsLower (c : Char) : Char :=
  if 65 ≤ c.toNat ∧ c.toNat ≤ 90 then Char.ofNat (c.toNat + 32) else c

/-- `s.toLowerCase().startsWith('0x')`: the first two characters lowercase
to `0` and `x`. -/
def startsWith0x (l : List Char) : Bool :=
  match l with
  | c0 :: c1 :: _ => jsLower c0 = '0' ∧ jsLower c1 = 'x'
  | _ => false

/-- `parseN` from src/fluence.ts lines 78-80 (identical in
src/fluence_client.ts lines 108-110):

`s.toLowerCase().startsWith('0x') ? new BN(s.slice(2), 16) : new BN(s)`. -/
def parseN (s : String) : Option Int :=
  if startsWith0x s.data then jsNewBN 16 (s.data.drop 2)
  else jsNewBN 10 s.data

/-! ## bn.js decimal rendering

`String(bn)` calls `BN#toString(10)`, which emits the sign and then the
decimal digits (grouped six at a time via divmod by 10^6, zero-padding
interior groups); the emitted text is exactly the standard no-leading-zero
decimal numeral of the magnitude, rendered here digit by digit. -/

/-- The ASCII character of a decimal digit. -/
def decDigitChar (d : Nat) : Char := Char.ofNat (48 + d)

/-- Decimal digit characters of `n`, most significant first.  Structural
recursion on a fuel argument (always called with enough fuel) so the
definition evaluates inside the kernel. -/
def natDecCharsAux : Nat → Nat → List Char
  | 0, _ => []
  | fuel + 1, n =>
    if n < 10 then [decDigitChar n]
    else natDecCharsAux fuel (n / 10) ++ [decDigitChar (n % 10)]

/-- Decimal digit characters of `n`, most significant first. -/
def natDecChars (n : Nat) : List Char := natDecCharsAux (n + 1) n

/-- `String(bn)` / `BN#toString(10)`: minus sign for negative values,
then the decimal digits of the magnitude. -/
def bnToString (i : Int) : String :=
  if i < 0 then String.mk ('-' :: natDecChars i.natAbs)
  else String.mk (natDecChars i.natAbs)

/-! ## Spec-side numeral grammar

Declarative grammar of "a valid decimal or `0x`-prefixed hexadecimal
numeral" and its positional value, written independently of the bn.js
parsing model above. -/

/-- ASCII decimal digit. -/
def isDecChar (c : Char) : Bool := 48 ≤ c.toNat && c.toNat ≤ 57

/-- ASCII hexadecimal digit, either letter case. -/
def isHexChar (c : Char) : Bool :=
  isDecChar c || (65 ≤ c.toNat && c.toNat ≤ 70) || (97 ≤ c.toNat && c.toNat ≤ 102)

/-- Value of a hexadecimal digit character, either letter case. -/
def hexCharVal (c : Char) : Nat :=
  if c.toNat ≤ 57 then c.toNat - 48
  else if c.toNat ≤ 70 then c.toNat - 55
  else c.toNat - 87

/-- Positional value of a decimal digit string. -/
def decVal (l : List Char) : Nat := l.foldl (fun a c => a * 10 + (c.toNat - 48)) 0

/-- Positional value of a hexadecimal digit string. -/
def hexVal (l : List Char) : Nat := l.foldl (fun a c => a * 16 + hexCharVal c) 0

/-- A valid numeral per the spec: a nonempty decimal digit string, or a
`0x`/`0X` prefix followed by a nonempty hexadecimal digit string of any
letter case. -/
def ValidNumeral (s : String) : Bool :=
  (decide (s.data ≠ []) && s.data.all isDecChar) ||
  (match s.data with
   | c0 :: c1 :: rest =>
     c0 == '0' && (c1 == 'x' || c1 == 'X') && decide (rest ≠ []) && rest.all isHexChar
   | _ => false)

/-- The mathematical value of a valid numeral. -/
def numeralValue (s : String) : Nat :=
  match s.data with
  | c0 :: c1 :: rest =>
    if c0 == '0' && (c1 == 'x' || c1 == 'X') then hexVal rest else decVal s.data
  | _ => decVal s.data

/-- Canonical textual form of a valid numeral: the decimal rendering of
its value. -/
def canonicalNumeral (s : String) : String := String.mk (natDecChars (numeralValue s))

/-- `str` is the canonical base-10 decimal numeral for `n`: nonempty, all
decimal digits, positional value `n`, `"0"` for zero and no leading zero
otherwise. -/
def IsCanonicalDecimal (str : String) (n : Nat) : Prop :=
  str.data ≠ [] ∧ str.data.all isDecChar = true ∧ decVal str.data = n ∧
    (n = 0 → str = "0") ∧ (n ≠ 0 → str.data.head? ≠ some '0')

/-- What `parseN` actually accepts (returns a value for): after stripping
whitespace and an optional leading minus sign, a possibly-empty digit
string — empty only when the whole input (after the `0x` prefix, on the
hex path) is the empty string. -/
def laxTail (digitOk : Char → Bool) (l : List Char) : Bool :=
  match l.filter (fun c => !(isJsWhitespace c)) with
  | [] => false
  | c :: r =>
    if c = '-' then decide (r ≠ []) && r.all digitOk else (c :: r).all digitOk

/-- The exact acceptance set of `parseN`: whitespace is ignored, a leading
minus sign is allowed, and the empty string (or a bare `0x`/`0X` prefix)
is accepted as 0. -/
def LaxNumeral (s : String) : Bool :=
  if startsWith0x s.data then
    decide (s.data.drop 2 = []) || laxTail isHexChar (s.data.drop 2)
  else
    decide (s.data = []) || laxTail isDecChar s.data

/-! ## Digit-level lemmas -/

theorem hex4Bits_of_hexChar {c : Char} (h : isHexChar c = true) :
    hex4Bits c = some (hexCharVal c) := by
  simp only [isHexChar, isDecChar, Bool.or_eq_true, Bool.and_eq_true,
    decide_eq_true_eq] at h
  unfold hex4Bits hexCharVal
  split_ifs <;> first | rfl | (simp only [Option.some.injEq]; omega) | (exfalso; omega)

theorem hex4Bits_isSome (c : Char) : (hex4Bits c).isSome = isHexChar c := by
  unfold hex4Bits
  simp only [isHexChar, isDecChar]
  split_ifs <;> simp <;> omega

theorem baseDigit_ten_of_decChar {c : Char} (h : isDecChar c = true) :
    baseDigit 10 c = some (c.toNat - 48) := by
  simp only [isDecChar, Bool.and_eq_true, decide_eq_true_eq] at h
  unfold baseDigit baseDigitVal
  split_ifs <;> first | rfl | (simp only [Option.some.injEq]; omega) | (exfalso; omega)

theorem baseDigit_ten_isSome (c : Char) : (baseDigit 10 c).isSome = isDecChar c := by
  unfold baseDigit baseDigitVal
  simp only [isDecChar]
  split_ifs <;> simp <;> omega

theorem not_whitespace_of_digitish {c : Char} (h : 48 ≤ c.toNat ∧ c.toNat < 160) :
    isJsWhitespace c = false := by
  cases hb : isJsWhitespace c
  · rfl
  · exfalso
    unfold isJsWhitespace at hb
    simp only [Bool.or_eq_true, Bool.and_eq_true, decide_eq_true_eq] at hb
    omega

theorem decChar_toNat {c : Char} (h : isDecChar c = true) :
    48 ≤ c.toNat ∧ c.toNat ≤ 57 := by
  simpa [isDecChar] using h

theorem hexChar_toNat {c : Char} (h : isHexChar c = true) :
    48 ≤ c.toNat ∧ c.toNat ≤ 102 := by
  simp only [isHexChar, isDecChar, Bool.or_eq_true, Bool.and_eq_true,
    decide_eq_true_eq] at h
  omega

/-! ## Parsing and rendering round-trip lemmas -/

theorem parseDigitsAux_isSome (base : Nat) (digit : Char → Option Nat) :
    ∀ (l : List Char) (acc : Nat),
      (parseDigitsAux base digit acc l).isSome = l.all (fun c => (digit c).isSome)
  | [], acc => by simp [parseDigitsAux]
  | c :: cs, acc => by
    simp only [parseDigitsAux, List.all_cons]
    cases h : digit c with
    | none => simp
    | some b => simp [parseDigitsAux_isSome base digit cs (acc * base + b)]

theorem parseDigitsAux_eq_foldl (base : Nat) (digit : Char → Option Nat)
    (dval : Char → Nat) :
    ∀ (l : List Char) (acc : Nat), (∀ c ∈ l, digit c = some (dval c)) →
      parseDigitsAux base digit acc l =
        some (l.foldl (fun a c => a * base + dval c) acc)
  | [], acc, _ => by simp [parseDigitsAux]
  | c :: cs, acc, h => by
    have hc : digit c = some (dval c) := h c (List.mem_cons_self c cs)
    simp only [parseDigitsAux, hc, List.foldl_cons]
    exact parseDigitsAux_eq_foldl base digit dval cs _
      (fun x hx => h x (List.mem_cons_of_mem c hx))

theorem filter_nonWS {l : List Char} (h : ∀ c ∈ l, 48 ≤ c.toNat ∧ c.toNat < 160) :
    l.filter (fun c => !(isJsWhitespace c)) = l :=
  List.filter_eq_self.mpr fun c hc => by
    simp [not_whitespace_of_digitish (h c hc)]

theorem splitNeg_digitish {l : List Char} (h : ∀ c ∈ l, 48 ≤ c.toNat ∧ c.toNat < 160) :
    splitNeg l = (false, l) := by
  cases l with
  | nil => rfl
  | cons c r =>
    have hc : 48 ≤ c.toNat := (h c (List.mem_cons_self c r)).1
    have hne : c ≠ '-' := by
      intro e
      subst e
      exact absurd hc (by decide)
    simp [splitNeg, hne]

theorem jsNewBN_hexDigits {l : List Char} (h1 : l ≠ [])
    (h2 : ∀ c ∈ l, isHexChar c = true) :
    jsNewBN 16 l = some ((hexVal l : Nat) : Int) := by
  have h48 : ∀ c ∈ l, 48 ≤ c.toNat ∧ c.toNat < 160 := fun c hc => by
    have := hexChar_toNat (h2 c hc)
    omega
  have hdig : ∀ c ∈ l, bnDigit 16 c = some (hexCharVal c) := fun c hc => by
    simp [bnDigit, hex4Bits_of_hexChar (h2 c hc)]
  unfold jsNewBN
  rw [if_neg h1]
  simp only [filter_nonWS h48, splitNeg_digitish h48]
  rw [if_neg h1]
  rw [parseDigitsAux_eq_foldl 16 (bnDigit 16) hexCharVal l 0 hdig]
  simp [hexVal]

theorem jsNewBN_decDigits {l : List Char} (h1 : l ≠ [])
    (h2 : ∀ c ∈ l, isDecChar c = true) :
    jsNewBN 10 l = some ((decVal l : Nat) : Int) := by
  have h48 : ∀ c ∈ l, 48 ≤ c.toNat ∧ c.toNat < 160 := fun c hc => by
    have := decChar_toNat (h2 c hc)
    omega
  have hdig : ∀ c ∈ l, bnDigit 10 c = some (c.toNat - 48) := fun c hc => by
    simp only [bnDigit, if_neg (by omega : ¬ (10 : Nat) = 16)]
    exact baseDigit_ten_of_decChar (h2 c hc)
  unfold jsNewBN
  rw [if_neg h1]
  simp only [filter_nonWS h48, splitNeg_digitish h48]
  rw [if_neg h1]
  rw [parseDigitsAux_eq_foldl 10 (bnDigit 10) (fun c => c.toNat - 48) l 0 hdig]
  simp [decVal]

theorem decDigitChar_toNat {d : Nat} (h : d < 10) : (decDigitChar d).toNat = 48 + d := by
  interval_cases d <;> rfl

theorem isDecChar_decDigitChar {d : Nat} (h : d < 10) :
    isDecChar (decDigitChar d) = true := by
  interval_cases d <;> rfl

theorem decDigitChar_ne_zeroChar {d : Nat} (h0 : d ≠ 0) (h : d < 10) :
    decDigitChar d ≠ '0' := by
  interval_cases d <;> first | exact absurd rfl h0 | decide

theorem natDecCharsAux_spec :
    ∀ fuel n, 1 ≤ fuel → n < 10 ^ fuel →
      natDecCharsAux fuel n ≠ [] ∧
      (natDecCharsAux fuel n).all isDecChar = true ∧
      decVal (natDecCharsAux fuel n) = n ∧
      (n ≠ 0 → (natDecCharsAux fuel n).head? ≠ some '0')
  | 0, _, hf, _ => by omega
  | fuel + 1, n, _, hn => by
    by_cases h10 : n < 10
    · simp only [natDecCharsAux, if_pos h10]
      refine ⟨by simp, by simp [isDecChar_decDigitChar h10], ?_, ?_⟩
      · simp [decVal, decDigitChar_toNat h10]
      · intro h0
        simp [decDigitChar_ne_zeroChar h0 h10]
    · have hf1 : 1 ≤ fuel := by
        rcases Nat.eq_zero_or_pos fuel with h | h
        · subst h
          omega
        · exact h
      have hdiv : n / 10 < 10 ^ fuel := by
        rw [Nat.div_lt_iff_lt_mul (by omega)]
        calc n < 10 ^ (fuel + 1) := hn
        _ = 10 ^ fuel * 10 := by ring
      obtain ⟨ih1, ih2, ih3, ih4⟩ := natDecCharsAux_spec fuel (n / 10) hf1 hdiv
      simp only [natDecCharsAux, if_neg h10]
      refine ⟨by simp, ?_, ?_, ?_⟩
      · simp only [List.all_append, ih2, List.all_cons, List.all_nil,
          Bool.and_true, Bool.true_and]
        exact isDecChar_decDigitChar (Nat.mod_lt n (by omega))
      · unfold decVal at ih3 ⊢
        rw [List.foldl_append, ih3]
        simp only [List.foldl_cons, List.foldl_nil]
        rw [decDigitChar_toNat (Nat.mod_lt n (by omega))]
        omega
      · intro _
        rw [List.head?_append]
        cases hph : (natDecCharsAux fuel (n / 10)).head? with
        | none => exact absurd (List.head?_eq_none_iff.mp hph) ih1
        | some c =>
          have := ih4 (by omega)
          rw [hph] at this
          simpa [Option.or] using this

theorem natDecChars_spec (n : Nat) :
    IsCanonicalDecimal (String.mk (natDecChars n)) n := by
  have hfuel : n < 10 ^ (n + 1) :=
    lt_of_lt_of_le (Nat.lt_pow_self (by omega) n)
      (Nat.pow_le_pow_right (by omega) (by omega))
  obtain ⟨h1, h2, h3, h4⟩ := natDecCharsAux_spec (n + 1) n (by omega) hfuel
  refine ⟨by simpa [natDecChars] using h1, by simpa [natDecChars] using h2,
    by simpa [natDecChars] using h3, ?_, by simpa [natDecChars] using h4⟩
  intro h0
  subst h0
  rfl

theorem bnToString_ofNat (n : Nat) :
    bnToString (n : Int) = String.mk (natDecChars n) := by
  unfold bnToString
  rw [if_neg (by omega)]
  simp

/-- Rendering a nonnegative BN with `String(bn)` yields the canonical
base-10 decimal numeral of its value. -/
theorem bnToString_canonical (n : Nat) :
    IsCanonicalDecimal (bnToString (n : Int)) n := by
  rw [bnToString_ofNat]
  exact natDecChars_spec n

theorem startsWith0x_of_hexPrefix (c1 : Char) (rest : List Char)
    (h : c1 = 'x' ∨ c1 = 'X') : startsWith0x ('0' :: c1 :: rest) = true := by
  rcases h with h | h <;> subst h <;> rfl

theorem jsLower_of_nonUpper {c : Char} (h : ¬ (65 ≤ c.toNat ∧ c.toNat ≤ 90)) :
    jsLower c = c := by
  unfold jsLower
  rw [if_neg h]

theorem startsWith0x_decimal {l : List Char} (h : ∀ c ∈ l, isDecChar c = true) :
    startsWith0x l = false := by
  cases l with
  | nil => rfl
  | cons c0 t =>
    cases t with
    | nil => rfl
    | cons c1 r =>
      have h1 := decChar_toNat (h c1 (by simp))
      have hlow : jsLower c1 = c1 := jsLower_of_nonUpper (by omega)
      have hx : jsLower c1 ≠ 'x' := by
        rw [hlow]
        intro e
        subst e
        exact absurd h1.2 (by decide)
      simp [startsWith0x, hx]

/-- `parseN` parses every valid numeral to its positional value. -/
theorem parseN_valid (s : String) (h : ValidNumeral s = true) :
    parseN s = some ((numeralValue s : Nat) : Int) := by
  unfold ValidNumeral at h
  rcases Bool.or_eq_true _ _ |>.mp h with hdec | hhex
  · obtain ⟨hne, hall⟩ := Bool.and_eq_true _ _ |>.mp hdec
    have hne' : s.data ≠ [] := by simpa using hne
    have hAll : ∀ c ∈ s.data, isDecChar c = true := by
      simpa [List.all_eq_true] using hall
    unfold parseN
    rw [startsWith0x_decimal hAll]
    simp only [Bool.false_eq_true, if_false]
    rw [jsNewBN_decDigits hne' hAll]
    unfold numeralValue
    cases hl : s.data with
    | nil => exact absurd hl hne'
    | cons c0 t =>
      cases t with
      | nil => rfl
      | cons c1 r =>
        have h1 := decChar_toNat (hAll c1 (by rw [hl]; simp))
        have hx : (c1 == 'x') = false := by
          simp only [beq_eq_false_iff_ne, ne_eq]
          intro e
          subst e
          exact absurd h1.2 (by decide)
        have hX : (c1 == 'X') = false := by
          simp only [beq_eq_false_iff_ne, ne_eq]
          intro e
          subst e
          exact absurd h1.2 (by decide)
        simp [hx, hX, hl]
  · unfold parseN numeralValue
    cases hl : s.data with
    | nil => rw [hl] at hhex; simp at hhex
    | cons c0 t =>
      cases t with
      | nil => rw [hl] at hhex; simp at hhex
      | cons c1 rest =>
        rw [hl] at hhex
        simp only [Bool.and_eq_true, beq_iff_eq, Bool.or_eq_true,
          decide_eq_true_eq] at hhex
        obtain ⟨⟨⟨hc0, hc1⟩, hrne⟩, hrall⟩ := hhex
        subst hc0
        have hAll : ∀ c ∈ rest, isHexChar c = true := by
          simpa [List.all_eq_true] using hrall
        rw [startsWith0x_of_hexPrefix c1 rest hc1]
        simp only [if_true]
        have hdrop : ('0' :: c1 :: rest).drop 2 = rest := rfl
        rw [hdrop, jsNewBN_hexDigits hrne hAll]
        have : (c1 == 'x' || c1 == 'X') = true := by
          rcases hc1 with h | h <;> subst h <;> simp
        simp [this]

theorem jsNewBN_isSome_lax (base : Nat) (digitOk : Char → Bool)
    (hdig : ∀ c, (bnDigit base c).isSome = digitOk c) (l : List Char) :
    (jsNewBN base l).isSome = (decide (l = []) || laxTail digitOk l) := by
  have hfun : (fun c => (bnDigit base c).isSome) = digitOk := funext hdig
  unfold jsNewBN laxTail
  by_cases h0 : l = []
  · subst h0
    simp
  · rw [if_neg h0]
    rw [decide_eq_false h0]
    simp only [Bool.false_or]
    generalize l.filter (fun c => !(isJsWhitespace c)) = t
    cases t with
    | nil => simp [splitNeg]
    | cons c r =>
      by_cases hc : c = '-'
      · subst hc
        simp only [splitNeg, eq_self_iff_true, if_true]
        by_cases hr : r = []
        · subst hr
          simp
        · rw [if_neg hr, decide_eq_true hr]
          simp only [Bool.true_and]
          have hall := parseDigitsAux_isSome base (bnDigit base) r 0
          rw [hfun] at hall
          rw [← hall]
          cases parseDigitsAux base (bnDigit base) 0 r <;> simp
      · simp only [splitNeg, if_neg hc]
        rw [if_neg (List.cons_ne_nil c r)]
        have hall := parseDigitsAux_isSome base (bnDigit base) (c :: r) 0
        rw [hfun] at hall
        rw [← hall]
        cases parseDigitsAux base (bnDigit base) 0 (c :: r) <;> simp

/-- The exact acceptance behaviour of `parseN`: it returns a value exactly
on the lax numerals (whitespace ignored, optional minus sign, empty digit
strings read as 0), and fails on everything else. -/
theorem parseN_isSome_iff_lax (s : String) : (parseN s).isSome = LaxNumeral s := by
  unfold parseN LaxNumeral
  have h16 : ∀ c, (bnDigit 16 c).isSome = isHexChar c := fun c => by
    simp only [bnDigit, if_pos rfl]
    exact hex4Bits_isSome c
  have h10 : ∀ c, (bnDigit 10 c).isSome = isDecChar c := fun c => by
    simp only [bnDigit, if_neg (by omega : ¬ (10 : Nat) = 16)]
    exact baseDigit_ten_isSome c
  cases hp : startsWith0x s.data with
  | true => simpa using jsNewBN_isSome_lax 16 isHexChar h16 (s.data.drop 2)
  | false => simpa using jsNewBN_isSome_lax 10 isDecChar h10 s.data

/-! ## SHA-1 (crypto-js)

`sha1n` (src/fluence.ts lines 74-76, src/fluence_client.ts lines 104-106)
is `new BN(String(sha1(text)), 16)`: crypto-js UTF-8-encodes the exact
literal string, hashes it with standard SHA-1, renders the five 32-bit
state words as 40 lowercase hex characters (big-endian, zero-padded), and
bn.js parses that hex text back to an integer.  SHA-1 is modelled here
from FIPS 180-4 on `Nat` with explicit reduction modulo `2 ^ 32`. -/

/-- Truncation to 32 bits. -/
def w32 (n : Nat) : Nat := n % 2 ^ 32

/-- 32-bit left rotation by `k` of a value (reduced to 32 bits first). -/
def rotl (k x : Nat) : Nat :=
  (x % 2 ^ 32) * 2 ^ k % 2 ^ 32 + (x % 2 ^ 32) / 2 ^ (32 - k)

/-- 32-bit complement. -/
def not32 (x : Nat) : Nat := 2 ^ 32 - 1 - x % 2 ^ 32

/-- The SHA-1 round function for round `i`. -/
def sha1F (i b c d : Nat) : Nat :=
  if i < 20 then (b &&& c) ||| (not32 b &&& d)
  else if i < 40 then b ^^^ c ^^^ d
  else if i < 60 then (b &&& c) ||| (b &&& d) ||| (c &&& d)
  else b ^^^ c ^^^ d

/-- The SHA-1 round constants. -/
def sha1K (i : Nat) : Nat :=
  if i < 20 then 0x5A827999
  else if i < 40 then 0x6ED9EBA1
  else if i < 60 then 0x8F1BBCDC
  else 0xCA62C1D6

/-- UTF-8 bytes of one code point (crypto-js hashes the UTF-8 encoding of
the exact literal string). -/
def utf8Char (c : Char) : List Nat :=
  if c.toNat < 128 then [c.toNat]
  else if c.toNat < 2048 then [192 + c.toNat / 64, 128 + c.toNat % 64]
  else if c.toNat < 65536 then
    [224 + c.toNat / 4096, 128 + c.toNat / 64 % 64, 128 + c.toNat % 64]
  else
    [240 + c.toNat / 262144, 128 + c.toNat / 4096 % 64,
     128 + c.toNat / 64 % 64, 128 + c.toNat % 64]

/-- UTF-8 bytes of a string. -/
def utf8Bytes (s : String) : List Nat := (s.data.map utf8Char).flatten

/-- `k` big-endian bytes of `n`. -/
def beBytes : Nat → Nat → List Nat
  | 0, _ => []
  | k + 1, n => beBytes k (n / 256) ++ [n % 256]

/-- SHA-1 padding: append `0x80`, zero bytes to reach 56 mod 64, then the
64-bit big-endian bit length. -/
def sha1Pad (msg : List Nat) : List Nat :=
  msg ++ [128] ++ List.replicate ((119 - msg.length % 64) % 64) 0 ++
    beBytes 8 (8 * msg.length)

/-- Big-endian 32-bit word from four bytes. -/
def beWord (b0 b1 b2 b3 : Nat) : Nat := ((b0 * 256 + b1) * 256 + b2) * 256 + b3

/-- The sixteen big-endian message words of a 64-byte block. -/
def toWords16 (block : List Nat) : List Nat :=
  (List.range 16).map fun i =>
    beWord (block.getD (4 * i) 0) (block.getD (4 * i + 1) 0)
      (block.getD (4 * i + 2) 0) (block.getD (4 * i + 3) 0)

/-- One message-schedule extension step:
`w[i] = rotl1 (w[i-3] xor w[i-8] xor w[i-14] xor w[i-16])`. -/
def schedStep (w : List Nat) : List Nat :=
  w ++ [rotl 1 (w.getD (w.length - 3) 0 ^^^ w.getD (w.length - 8) 0 ^^^
    w.getD (w.length - 14) 0 ^^^ w.getD (w.length - 16) 0)]

/-- The full 80-word message schedule. -/
def sha1Schedule (w16 : List Nat) : List Nat := schedStep^[64] w16

/-- The SHA-1 working state. -/
abbrev Sha1State := Nat × Nat × Nat × Nat × Nat

/-- One SHA-1 round. -/
def sha1Round (w : List Nat) (st : Sha1State) (i : Nat) : Sha1State :=
  (w32 (rotl 5 st.1 + sha1F i st.2.1 st.2.2.1 st.2.2.2.1 + st.2.2.2.2 +
     sha1K i + w.getD i 0),
   st.1, rotl 30 st.2.1, st.2.2.1, st.2.2.2.1)

/-- Compression of one 64-byte block into the running state. -/
def sha1Compress (h : Sha1State) (block : List Nat) : Sha1State :=
  let st := (List.range 80).foldl (sha1Round (sha1Schedule (toWords16 block))) h
  (w32 (h.1 + st.1), w32 (h.2.1 + st.2.1), w32 (h.2.2.1 + st.2.2.1),
   w32 (h.2.2.2.1 + st.2.2.2.1), w32 (h.2.2.2.2 + st.2.2.2.2))

/-- The SHA-1 initial state. -/
def sha1Init : Sha1State := (0x67452301, 0xEFCDAB89, 0x98BADCFE, 0x10325476, 0xC3D2E1F0)

/-- Fold the compression over the 64-byte blocks (fuel-structured so the
definition evaluates inside the kernel; the fuel is always sufficient). -/
def sha1BlocksAux : Nat → Sha1State → List Nat → Sha1State
  | 0, h, _ => h
  | fuel + 1, h, l =>
    if l = [] then h
    else sha1BlocksAux fuel (sha1Compress h (l.take 64)) (l.drop 64)

/-- The SHA-1 digest of a string as a 160-bit big-endian natural number. -/
def sha1Nat (t : String) : Nat :=
  let m := sha1Pad (utf8Bytes t)
  let h := sha1BlocksAux m.length sha1Init m
  (((h.1 * 2 ^ 32 + h.2.1) * 2 ^ 32 + h.2.2.1) * 2 ^ 32 + h.2.2.2.1) * 2 ^ 32 +
    h.2.2.2.2

/-- Lowercase hex character of a digit. -/
def hexDigitChar (d : Nat) : Char :=
  Char.ofNat (if d < 10 then 48 + d else 87 + d)

/-- `k` big-endian lowercase hex characters of `n` (zero-padded). -/
def toHexFixed : Nat → Nat → List Char
  | 0, _ => []
  | k + 1, n => toHexFixed k (n / 16) ++ [hexDigitChar (n % 16)]

/-- `String(sha1(text))`: the 40-character lowercase hex rendering of the
digest (crypto-js renders each state word as 8 zero-padded hex characters;
concatenated they are exactly the 40 fixed-width hex characters of the
160-bit big-endian digest value). -/
def sha1HexDigest (t : String) : String := String.mk (toHexFixed 40 (sha1Nat t))

/-- `sha1n` from src/fluence.ts lines 74-76 / src/fluence_client.ts lines
104-106: `new BN(String(sha1(permanentId)), 16)`. -/
def sha1n (t : String) : Option Int := jsNewBN 16 (sha1HexDigest t).data

/-! ## SHA-1 lemmas -/

theorem hexDigitChar_spec {d : Nat} (h : d < 16) :
    isHexChar (hexDigitChar d) = true ∧ hexCharVal (hexDigitChar d) = d := by
  interval_cases d <;> exact ⟨rfl, rfl⟩

theorem toHexFixed_all_hex : ∀ k n, ∀ c ∈ toHexFixed k n, isHexChar c = true
  | 0, n, c, hc => by simp [toHexFixed] at hc
  | k + 1, n, c, hc => by
    simp only [toHexFixed, List.mem_append, List.mem_singleton] at hc
    rcases hc with hc | hc
    · exact toHexFixed_all_hex k (n / 16) c hc
    · subst hc
      exact (hexDigitChar_spec (Nat.mod_lt n (by omega))).1

theorem toHexFixed_length : ∀ k n, (toHexFixed k n).length = k
  | 0, _ => rfl
  | k + 1, n => by simp [toHexFixed, toHexFixed_length k (n / 16)]

theorem hexVal_toHexFixed : ∀ k n, hexVal (toHexFixed k n) = n % 16 ^ k
  | 0, n => by simp [toHexFixed, hexVal, Nat.mod_one]
  | k + 1, n => by
    have ih := hexVal_toHexFixed k (n / 16)
    unfold hexVal at ih ⊢
    simp only [toHexFixed, List.foldl_append, List.foldl_cons, List.foldl_nil, ih]
    rw [(hexDigitChar_spec (Nat.mod_lt n (by omega))).2]
    have hsplit : n % (16 * 16 ^ k) = n % 16 + 16 * (n / 16 % 16 ^ k) := Nat.mod_mul
    have hpow : (16 : Nat) ^ (k + 1) = 16 * 16 ^ k := by ring
    rw [hpow, hsplit]
    ring

/-- All five components of a SHA-1 state fit in 32 bits. -/
def Bounded32 (h : Sha1State) : Prop :=
  h.1 < 2 ^ 32 ∧ h.2.1 < 2 ^ 32 ∧ h.2.2.1 < 2 ^ 32 ∧ h.2.2.2.1 < 2 ^ 32 ∧
    h.2.2.2.2 < 2 ^ 32

theorem sha1Compress_bounded (h : Sha1State) (block : List Nat) :
    Bounded32 (sha1Compress h block) := by
  simp only [sha1Compress, Bounded32, w32]
  refine ⟨?_, ?_, ?_, ?_, ?_⟩ <;> exact Nat.mod_lt _ (by norm_num)

theorem sha1BlocksAux_bounded :
    ∀ (fuel : Nat) (h : Sha1State) (l : List Nat), Bounded32 h →
      Bounded32 (sha1BlocksAux fuel h l)
  | 0, h, _, hb => hb
  | fuel + 1, h, l, hb => by
    unfold sha1BlocksAux
    by_cases hl : l = []
    · rw [if_pos hl]
      exact hb
    · rw [if_neg hl]
      exact sha1BlocksAux_bounded fuel _ _ (sha1Compress_bounded h (l.take 64))

theorem combine32 {x y k : Nat} (hx : x < 2 ^ k) (hy : y < 2 ^ 32) :
    x * 2 ^ 32 + y < 2 ^ (k + 32) := by
  have h1 : x * 2 ^ 32 + y < (x + 1) * 2 ^ 32 := by
    have : (x + 1) * 2 ^ 32 = x * 2 ^ 32 + 2 ^ 32 := by ring
    omega
  have h2 : (x + 1) * 2 ^ 32 ≤ 2 ^ k * 2 ^ 32 := Nat.mul_le_mul_right _ hx
  have h3 : (2 : Nat) ^ k * 2 ^ 32 = 2 ^ (k + 32) := (pow_add 2 k 32).symm
  omega

theorem sha1Nat_lt (t : String) : sha1Nat t < 2 ^ 160 := by
  have hinit : Bounded32 sha1Init := by
    refine ⟨?_, ?_, ?_, ?_, ?_⟩ <;> norm_num [sha1Init]
  obtain ⟨h1, h2, h3, h4, h5⟩ :=
    sha1BlocksAux_bounded (sha1Pad (utf8Bytes t)).length sha1Init
      (sha1Pad (utf8Bytes t)) hinit
  unfold sha1Nat
  have c1 := combine32 h1 h2
  have c2 := combine32 c1 h3
  have c3 := combine32 c2 h4
  have c4 := combine32 c3 h5
  exact c4

theorem sha1n_eq_digest (t : String) :
    sha1n t = some ((sha1Nat t : Nat) : Int) := by
  unfold sha1n sha1HexDigest
  have hne : toHexFixed 40 (sha1Nat t) ≠ [] := by
    intro e
    have := toHexFixed_length 40 (sha1Nat t)
    rw [e] at this
    simp at this
  have hall : ∀ c ∈ toHexFixed 40 (sha1Nat t), isHexChar c = true :=
    toHexFixed_all_hex 40 (sha1Nat t)
  show jsNewBN 16 (toHexFixed 40 (sha1Nat t)) = _
  rw [jsNewBN_hexDigits hne hall, hexVal_toHexFixed]
  congr 1
  have h160 : (16 : Nat) ^ 40 = 2 ^ 160 := by norm_num
  rw [h160]
  exact_mod_cast Nat.mod_eq_of_lt (sha1Nat_lt t)

/-! ## Web3StarkSigner (src/signer.ts)

The signer composes external cryptographic primitives (ethers signature
splitting, the starkcrypto account path / key grinding / Pedersen hash /
curve signing, the ethereumjs HD wallet).  Those primitives are opaque to
this repository, so they are abstracted as an environment of pure
functions; the embedding below is the exact composition the source
performs with them. -/

/-- The external cryptographic primitives used by `Web3StarkSigner`,
abstracted over the key-pair type `KP` (`ec.KeyPair` in the source).
`splitSigS` is `utils.splitSignature(sig).s`; `hdkeyDerive seed path` is
`hdkey.fromMasterSeed(hexToBuffer(seed)).derivePath(path).getWallet()
.getPrivateKeyString()`; `grindKey` is `grindKey(derived, starkEc.n)`;
`getPublicX` is `kp.getPublic().getX()`; `curveSign kp digestText` is
`sign(kp, digestText)` returning the signature components `(r, s)`. -/
structure CryptoEnv (KP : Type) where
  pedersen : Int → Int → Int
  splitSigS : String → String
  getAccountPath : String → String → String → Nat → String
  hdkeyDerive : String → String → String
  grindKey : String → String
  keyFromPrivate : String → KP
  getPublicX : KP → Int
  curveSign : KP → String → Int × Int

/-- The external wallet capability: `signer.signMessage` (a deterministic
signature for a fixed message and account, per the spec) and
`signer.getAddress`. -/
structure WalletEnv where
  signMessage : String → String
  address : String

/-- JavaScript `Array.prototype.reduceRight` with an initial value:
iterate from the last index down to the first, `acc = f(acc, elem)`. -/
def jsReduceRight {α β : Type} (f : β → α → β) (init : β) (l : List α) : β :=
  l.reverse.foldl f init

namespace Web3StarkSigner

/-- `deriveKeyPair` (src/signer.ts lines 32-43): sign the challenge
message, split the signature and keep `s`, build the account path from
layer/application/address with child index 1, derive the HD sub-key,
grind it into the curve's key range, and build the key pair. -/
def deriveKeyPair {KP : Type} (E : CryptoEnv KP) (W : WalletEnv)
    (layer application message : String) : KP :=
  E.keyFromPrivate
    (E.grindKey
      (E.hdkeyDerive (E.splitSigS (W.signMessage message))
        (E.getAccountPath layer application W.address 1)))

/-- `deriveStarkKey` (src/signer.ts lines 19-23): the x-coordinate of the
derived public point. -/
def deriveStarkKey {KP : Type} (E : CryptoEnv KP) (W : WalletEnv)
    (layer application message : String) : Int :=
  E.getPublicX (deriveKeyPair E W layer application message)

/-- The digest computed inside `sign` (src/signer.ts line 27):
`message.reduceRight((h, n) => pedersen([n, h]), new BN(0))`. -/
def signDigest {KP : Type} (E : CryptoEnv KP) (message : List Int) : Int :=
  jsReduceRight (fun h n => E.pedersen n h) 0 message

/-- `sign` (src/signer.ts lines 25-30): derive the key pair, fold the
message to a digest, and return the public x-coordinate together with the
curve signature over `String(hash)`. -/
def sign (KP : Type) (E : CryptoEnv KP) (W : WalletEnv)
    (layer application message : String) (vector : List Int) : Int × (Int × Int) :=
  (E.getPublicX (deriveKeyPair E W layer application message),
   E.curveSign (deriveKeyPair E W layer application message)
     (bnToString (signDigest E vector)))

end Web3StarkSigner

theorem jsReduceRight_eq_foldr {α β : Type} (f : β → α → β) (init : β) (l : List α) :
    jsReduceRight f init l = l.foldr (fun a b => f b a) init := by
  unfold jsReduceRight
  exact List.foldl_reverse l f init ▸ rfl

/-! ## TimestampNonce (src/nonce.ts)

`next()` is `new BN(Date.now() / 1e3)`.  The division produces a
fractional JavaScript number; bn.js `_initNumber` loads it into one, two
or three 26-bit limbs using bitwise operations whose `ToInt32` conversion
truncates the fraction (each limb is the truncated value reduced modulo
`2 ^ 32` and then masked to 26 bits), and asserts the number is below
`2 ^ 53`.  The model takes the current epoch milliseconds as a natural
number and performs the division exactly in `ℚ`; for inputs below `2 ^ 52`
milliseconds the IEEE-754 quotient has the same floor as the exact
quotient, so the exact model is faithful there. -/

/-- bn.js `_initNumber` on a nonnegative JavaScript number: one, two or
three 26-bit limbs; `x & 0x3ffffff` is `ToInt32(x)` (truncation, then
reduction modulo `2 ^ 32`) masked to the low 26 bits. -/
def bnOfNumber (x : ℚ) : Option Nat :=
  if x < 2 ^ 26 then some (⌊x⌋₊ % 2 ^ 26)
  else if x < 2 ^ 52 then
    some (⌊x⌋₊ % 2 ^ 32 % 2 ^ 26 + ⌊x / ((2 ^ 26 : Nat) : ℚ)⌋₊ % 2 ^ 32 % 2 ^ 26 * 2 ^ 26)
  else if x < 2 ^ 53 then
    some (⌊x⌋₊ % 2 ^ 32 % 2 ^ 26 + ⌊x / ((2 ^ 26 : Nat) : ℚ)⌋₊ % 2 ^ 32 % 2 ^ 26 * 2 ^ 26
      + 2 ^ 52)
  else none

namespace TimestampNonce

/-- `next()` (src/nonce.ts lines 7-11): `new BN(Date.now() / 1e3)`, taking
the wall-clock milliseconds as input. -/
def next (nowMs : Nat) : Option Nat := bnOfNumber ((nowMs : ℚ) / 1000)

end TimestampNonce

theorem bnOfNumber_floor (x : ℚ) (h0 : 0 ≤ x) (h53 : x < 2 ^ 53) :
    bnOfNumber x = some ⌊x⌋₊ := by
  have hfl : (⌊x⌋₊ : ℚ) ≤ x := Nat.floor_le h0
  have hmid : ⌊x / ((2 ^ 26 : Nat) : ℚ)⌋₊ = ⌊x⌋₊ / 2 ^ 26 := Nat.floor_div_nat x (2 ^ 26)
  unfold bnOfNumber
  by_cases hb1 : x < 2 ^ 26
  · rw [if_pos hb1]
    have hm : ⌊x⌋₊ < 2 ^ 26 := by
      have : (⌊x⌋₊ : ℚ) < ((2 ^ 26 : Nat) : ℚ) := by
        push_cast
        exact lt_of_le_of_lt hfl hb1
      exact_mod_cast this
    rw [Nat.mod_eq_of_lt hm]
  · rw [if_neg hb1]
    by_cases hb2 : x < 2 ^ 52
    · rw [if_pos hb2]
      have hm : ⌊x⌋₊ < 2 ^ 52 := by
        have : (⌊x⌋₊ : ℚ) < ((2 ^ 52 : Nat) : ℚ) := by
          push_cast
          exact lt_of_le_of_lt hfl hb2
        exact_mod_cast this
      rw [hmid]
      congr 1
      have e26 : (2 : Nat) ^ 26 = 67108864 := by norm_num
      have e32 : (2 : Nat) ^ 32 = 4294967296 := by norm_num
      have e52 : (2 : Nat) ^ 52 = 4503599627370496 := by norm_num
      rw [e26, e32] at *
      rw [e52] at hm
      omega
    · rw [if_neg hb2, if_pos h53]
      have hm : ⌊x⌋₊ < 2 ^ 53 := by
        have : (⌊x⌋₊ : ℚ) < ((2 ^ 53 : Nat) : ℚ) := by
          push_cast
          exact lt_of_le_of_lt hfl h53
        exact_mod_cast this
      have hm2 : 2 ^ 52 ≤ ⌊x⌋₊ := by
        have hx2 : ((2 ^ 52 : Nat) : ℚ) ≤ x := by
          push_cast
          exact le_of_not_lt hb2
        exact Nat.le_floor hx2
      rw [hmid]
      congr 1
      have e26 : (2 : Nat) ^ 26 = 67108864 := by norm_num
      have e32 : (2 : Nat) ^ 32 = 4294967296 := by norm_num
      have e52 : (2 : Nat) ^ 52 = 4503599627370496 := by norm_num
      have e53 : (2 : Nat) ^ 53 = 9007199254740992 := by norm_num
      rw [e26, e32, e52] at *
      rw [e53] at hm
      omega

theorem timestampNext_eq_floorSeconds (nowMs : Nat) (h : nowMs < 2 ^ 52) :
    TimestampNonce.next nowMs = some (nowMs / 1000) := by
  unfold TimestampNonce.next
  have h0 : (0 : ℚ) ≤ (nowMs : ℚ) / 1000 := by positivity
  have hle : (nowMs : ℚ) / 1000 ≤ (nowMs : ℚ) := by
    apply div_le_self (by positivity)
    norm_num
  have h53 : (nowMs : ℚ) / 1000 < 2 ^ 53 := by
    calc (nowMs : ℚ) / 1000 ≤ (nowMs : ℚ) := hle
    _ < 2 ^ 53 := by
      have : (nowMs : ℚ) < ((2 ^ 52 : Nat) : ℚ) := by exact_mod_cast h
      calc (nowMs : ℚ) < ((2 ^ 52 : Nat) : ℚ) := this
      _ ≤ 2 ^ 53 := by push_cast; norm_num
  rw [bnOfNumber_floor _ h0 h53]
  congr 1
  have : ((1000 : Nat) : ℚ) = (1000 : ℚ) := by push_cast; ring
  rw [← this, Nat.floor_div_nat, Nat.floor_natCast]

/-! ## FluenceClient request boundaries (src/fluence_client.ts)

Each signed request renders its authentication material into the query
string (`?signature=${r},${s}`, template-literal interpolation, i.e.
`BN#toString(10)`) and the body (`String(x)`, likewise `toString(10)`).
The numeric inputs are the BN values produced by the signer and nonce
provider (nonnegative field elements), taken here as naturals; raw string
fields (addresses, contracts) pass through untouched. -/

/-- JavaScript `o || ''` on an optional string: `undefined` and the empty
string are both falsy. -/
def jsOrEmpty (o : Option String) : String :=
  match o with
  | none => ""
  | some s => if s = "" then "" else s

/-- `registerClient` (lines 140-150): query `signature=r,s`; body
`stark_key`, `address`, `nonce`. -/
structure RegisterClientReq where
  sigR : String
  sigS : String
  stark_key : String
  address : String
  nonce : String

def registerClientReq (account : String) (starkKey r s nonce : Nat) :
    RegisterClientReq :=
  { sigR := bnToString (r : Int), sigS := bnToString (s : Int),
    stark_key := bnToString (starkKey : Int), address := account,
    nonce := bnToString (nonce : Int) }

/-- `mint` (lines 265-276): query `signature=r,s`; body `user` (the
recipient), `token_id`, `contract`, `nonce`. -/
structure MintReq where
  sigR : String
  sigS : String
  user : String
  token_id : String
  contract : String
  nonce : String

def mintReq (toUser tokenId : Nat) (contract : String) (r s nonce : Nat) : MintReq :=
  { sigR := bnToString (r : Int), sigS := bnToString (s : Int),
    user := bnToString (toUser : Int), token_id := bnToString (tokenId : Int),
    contract := contract, nonce := bnToString (nonce : Int) }

/-- `transfer` (lines 297-314): query `signature=r,s`; body `from` (the
stark key), `to`, `amount_or_token_id`, `contract`, `nonce`. -/
structure TransferReq where
  sigR : String
  sigS : String
  from_key : String
  to_user : String
  amount_or_token_id : String
  contract : String
  nonce : String

def transferReq (starkKey toUser amountOrTokenId : Nat) (contract : String)
    (r s nonce : Nat) : TransferReq :=
  { sigR := bnToString (r : Int), sigS := bnToString (s : Int),
    from_key := bnToString (starkKey : Int), to_user := bnToString (toUser : Int),
    amount_or_token_id := bnToString (amountOrTokenId : Int),
    contract := contract, nonce := bnToString (nonce : Int) }

/-- `withdraw` (lines 278-295): query `signature=r,s`; body `user` (the
stark key), `amount_or_token_id`, `contract` (`contract || '0'`),
`address`, `nonce`. -/
structure WithdrawReq where
  sigR : String
  sigS : String
  user : String
  amount_or_token_id : String
  contract : String
  address : String
  nonce : String

def withdrawReq (starkKey amountOrTokenId : Nat) (contract : Option String)
    (account : String) (r s nonce : Nat) : WithdrawReq :=
  { sigR := bnToString (r : Int), sigS := bnToString (s : Int),
    user := bnToString (starkKey : Int),
    amount_or_token_id := bnToString (amountOrTokenId : Int),
    contract := match contract with
      | none => "0"
      | some c => if c = "" then "0" else c,
    address := account, nonce := bnToString (nonce : Int) }

/-- `createOrder` (lines 330-357): query `signature=r,s`; body `order_id`,
`user` (the stark key), `bid`, `base_contract`, `base_token_id`,
`quote_contract`, `quote_amount`; no nonce. -/
structure CreateOrderReq where
  sigR : String
  sigS : String
  order_id : String
  user : String
  bid : Bool
  base_contract : String
  base_token_id : String
  quote_contract : String
  quote_amount : String

def createOrderReq (starkKey orderId : Nat) (bid : Bool)
    (baseContract : String) (baseTokenId : Nat) (quoteContract : String)
    (quoteAmount r s : Nat) : CreateOrderReq :=
  { sigR := bnToString (r : Int), sigS := bnToString (s : Int),
    order_id := bnToString (orderId : Int), user := bnToString (starkKey : Int),
    bid := bid, base_contract := baseContract,
    base_token_id := bnToString (baseTokenId : Int),
    quote_contract := quoteContract,
    quote_amount := bnToString (quoteAmount : Int) }

/-- `fulfillOrder` (lines 365-374): query `signature=r,s`; body `user`
(the stark key), `nonce`. -/
structure FulfillOrderReq where
  sigR : String
  sigS : String
  user : String
  nonce : String

def fulfillOrderReq (starkKey r s nonce : Nat) : FulfillOrderReq :=
  { sigR := bnToString (r : Int), sigS := bnToString (s : Int),
    user := bnToString (starkKey : Int), nonce := bnToString (nonce : Int) }

/-- `cancelOrder` (lines 376-382): DELETE with query
`?nonce=${nonce}&signature=${r},${s}`; no body fields. -/
structure CancelOrderReq where
  sigR : String
  sigS : String
  nonceQuery : String

def cancelOrderReq (r s nonce : Nat) : CancelOrderReq :=
  { sigR := bnToString (r : Int), sigS := bnToString (s : Int),
    nonceQuery := bnToString (nonce : Int) }

/-- `registerCollection` (lines 182-194): the signed message vector
`[parseN(address), sha1n(name), sha1n(symbol), sha1n(baseURI),
sha1n(image), sha1n(background_image || ''), sha1n(description || '')]`;
`none` models a parse/hash failure aborting the call. -/
def registerCollectionVector (address name symbol baseURI image : String)
    (background_image description : Option String) : Option (List Int) := do
  let a ← parseN address
  let n ← sha1n name
  let sy ← sha1n symbol
  let b ← sha1n baseURI
  let i ← sha1n image
  let bg ← sha1n (jsOrEmpty background_image)
  let d ← sha1n (jsOrEmpty description)
  return [a, n, sy, b, i, bg, d]

/-! ## Shared helper lemmas for the claims -/

theorem signDigest_eq_foldr {KP : Type} (E : CryptoEnv KP) (v : List Int) :
    Web3StarkSigner.signDigest E v = v.foldr (fun e acc => E.pedersen e acc) 0 := by
  unfold Web3StarkSigner.signDigest
  rw [jsReduceRight_eq_foldr]

theorem jsOrEmpty_of_absent_or_empty {o : Option String}
    (h : o = none ∨ o = some "") : jsOrEmpty o = "" := by
  rcases h with h | h <;> subst h <;> rfl

/-- A concrete crypto environment used only to witness hypotheses at a
concrete input. -/
def unitCryptoEnv : CryptoEnv Int where
  pedersen := fun a b => a + 2 * b
  splitSigS := fun s => s
  getAccountPath := fun l a addr _ => l ++ "/" ++ a ++ "/" ++ addr
  hdkeyDerive := fun seed path => seed ++ path
  grindKey := fun s => s
  keyFromPrivate := fun s => (s.length : Int)
  getPublicX := fun k => k + 1
  curveSign := fun k d => (k, (d.length : Int))

/-- A concrete wallet capability used only to witness hypotheses at a
concrete input. -/
def unitWallet : WalletEnv where
  signMessage := fun m => m ++ "sig"
  address := "0xab"

/-! ## The claims -/

/-- Claim C1: for every message vector the digest signed by
`Web3StarkSigner.sign` equals the right fold with seed 0 of the
two-argument Pedersen hash, `H(e1, H(e2, ..., H(en, 0)...))` with
`acc = H(elements[i], acc)` applied from the last index to the first, and
the empty vector folds to the field element 0. -/
theorem claim1_digest_right_fold {KP : Type} (E : CryptoEnv KP) (v : List Int) :
    Web3StarkSigner.signDigest E v = v.foldr (fun e acc => E.pedersen e acc) 0 ∧
    Web3StarkSigner.signDigest E [] = 0 :=
  ⟨signDigest_eq_foldr E v, rfl⟩

/-- Claim C2: key derivation is deterministic — for a fixed wallet
challenge signature, wallet address and derivation context, repeated calls
to `deriveKeyPair` (and hence `deriveStarkKey`) return the identical key
pair; the derivation steps after the wallet signature are pure functions
of the signature, the address and the context, with no additional
randomness. -/
theorem claim2_derivation_deterministic {KP : Type} (E : CryptoEnv KP)
    (W W' : WalletEnv) (layer application message : String)
    (hs : W.signMessage message = W'.signMessage message)
    (ha : W.address = W'.address) :
    Web3StarkSigner.deriveKeyPair E W layer application message =
      Web3StarkSigner.deriveKeyPair E W' layer application message ∧
    Web3StarkSigner.deriveStarkKey E W layer application message =
      Web3StarkSigner.deriveStarkKey E W' layer application message := by
  unfold Web3StarkSigner.deriveStarkKey Web3StarkSigner.deriveKeyPair
  rw [hs, ha]
  exact ⟨rfl, rfl⟩

theorem claim2_witness :
    unitWallet.signMessage "challenge" = unitWallet.signMessage "challenge" ∧
    unitWallet.address = unitWallet.address ∧
    (Web3StarkSigner.deriveKeyPair unitCryptoEnv unitWallet "starkex" "app" "challenge" =
       Web3StarkSigner.deriveKeyPair unitCryptoEnv unitWallet "starkex" "app" "challenge" ∧
     Web3StarkSigner.deriveStarkKey unitCryptoEnv unitWallet "starkex" "app" "challenge" =
       Web3StarkSigner.deriveStarkKey unitCryptoEnv unitWallet "starkex" "app" "challenge") :=
  ⟨rfl, rfl,
    claim2_derivation_deterministic unitCryptoEnv unitWallet unitWallet
      "starkex" "app" "challenge" rfl rfl⟩

/-- Claim C3: `Web3StarkSigner.sign` returns a pair whose first component
is the x-coordinate of the derived public point (the value
`deriveStarkKey` returns for the same wallet signature and context) and
whose second component is the curve signature, produced with the derived
key pair, over the digest `fold(v)`. -/
theorem claim3_sign_components {KP : Type} (E : CryptoEnv KP) (W : WalletEnv)
    (layer application message : String) (v : List Int) :
    (Web3StarkSigner.sign KP E W layer application message v).1 =
      Web3StarkSigner.deriveStarkKey E W layer application message ∧
    (Web3StarkSigner.sign KP E W layer application message v).2 =
      E.curveSign (Web3StarkSigner.deriveKeyPair E W layer application message)
        (bnToString (v.foldr (fun e acc => E.pedersen e acc) 0)) := by
  refine ⟨rfl, ?_⟩
  show E.curveSign _ (bnToString (Web3StarkSigner.signDigest E v)) = _
  rw [signDigest_eq_foldr]

/-- Claim C4: `TimestampNonce.next()` returns the wall-clock time in whole
seconds, `floor(Date.now() / 1000)`; two calls within the same whole
second return the same value, and strict monotonicity does not hold (1000
ms and 1999 ms yield the same nonce).  The bound `2 ^ 52` keeps the exact
rational model faithful to the IEEE-754 division performed by the code. -/
theorem claim4_timestamp_nonce (nowMs t1 t2 : Nat)
    (h : nowMs < 2 ^ 52) (h1 : t1 < 2 ^ 52) (h2 : t2 < 2 ^ 52) :
    TimestampNonce.next nowMs = some (nowMs / 1000) ∧
    (t1 / 1000 = t2 / 1000 → TimestampNonce.next t1 = TimestampNonce.next t2) ∧
    (1000 < 1999 ∧ TimestampNonce.next 1000 = TimestampNonce.next 1999) := by
  refine ⟨timestampNext_eq_floorSeconds nowMs h, ?_, by omega, ?_⟩
  · intro he
    rw [timestampNext_eq_floorSeconds t1 h1, timestampNext_eq_floorSeconds t2 h2, he]
  · rw [timestampNext_eq_floorSeconds 1000 (by norm_num),
      timestampNext_eq_floorSeconds 1999 (by norm_num)]

theorem claim4_witness :
    2500 < 2 ^ 52 ∧ 3001 < 2 ^ 52 ∧ 3999 < 2 ^ 52 ∧
    (TimestampNonce.next 2500 = some (2500 / 1000) ∧
     (3001 / 1000 = 3999 / 1000 →
       TimestampNonce.next 3001 = TimestampNonce.next 3999) ∧
     (1000 < 1999 ∧ TimestampNonce.next 1000 = TimestampNonce.next 1999)) :=
  ⟨by norm_num, by norm_num, by norm_num,
    claim4_timestamp_nonce 2500 3001 3999 (by norm_num) (by norm_num) (by norm_num)⟩

/-- Counterexample to claim C5 as stated: the bare prefix `"0x"` is not a
valid decimal or hexadecimal numeral, yet `parseN` silently returns the
value 0 instead of failing. -/
theorem claim5_counterexample :
    parseN "0x" = some 0 ∧ ValidNumeral "0x" = false :=
  ⟨by decide, by decide⟩

/-- Claim C5 (amended): `parseN` returns a value exactly on the lax
numerals — whitespace anywhere is ignored, one leading minus sign is
allowed, and an empty digit sequence (the empty string, or a bare
`0x`/`0X` prefix) is read as 0; for every other input text, in particular
any text containing an invalid digit character for its base, it fails with
an error. -/
theorem claim5_amended (s : String) : (parseN s).isSome = LaxNumeral s :=
  parseN_isSome_iff_lax s

/-- Claim C6: for every valid decimal numeral and every valid hexadecimal
numeral with a `0x` prefix in any letter case, `parseN` parses the text to
its positional value (treating any casing of the prefix as hexadecimal and
the digits as base 16) and rendering the result back to text yields the
canonical decimal form of the numeral. -/
theorem claim6_parse_render_roundtrip (s : String) (h : ValidNumeral s = true) :
    parseN s = some ((numeralValue s : Nat) : Int) ∧
    (parseN s).map bnToString = some (canonicalNumeral s) ∧
    IsCanonicalDecimal (canonicalNumeral s) (numeralValue s) := by
  have hp := parseN_valid s h
  refine ⟨hp, ?_, natDecChars_spec (numeralValue s)⟩
  rw [hp]
  simp only [Option.map_some']
  rw [bnToString_ofNat]
  rfl

theorem claim6_witness :
    ValidNumeral "0X1a" = true ∧
    (parseN "0X1a" = some ((numeralValue "0X1a" : Nat) : Int) ∧
     (parseN "0X1a").map bnToString = some (canonicalNumeral "0X1a") ∧
     IsCanonicalDecimal (canonicalNumeral "0X1a") (numeralValue "0X1a")) :=
  ⟨by decide, claim6_parse_render_roundtrip "0X1a" (by decide)⟩

/-- Claim C7: `sha1n(text)` equals the SHA-1 digest of the exact literal
string (UTF-8 encoded, no trimming or normalization), with the big-endian
hex digest reinterpreted as an unsigned integer; as a pure function it is
deterministic, and the result is below the 160-bit digest width. -/
theorem claim7_sha1n (t : String) :
    sha1n t = some ((sha1Nat t : Nat) : Int) ∧ sha1Nat t < 2 ^ 160 :=
  ⟨sha1n_eq_digest t, sha1Nat_lt t⟩

/-- Claim C8: in every `FluenceClient` request carrying signing material
(`registerClient`, `mint`, `transfer`, `withdraw`, `createOrder`,
`fulfillOrder`, `cancelOrder`), each of the stark key, the signature
components r and s, and the nonce that the request carries is rendered at
the boundary as a base-10 decimal string (canonical decimal numeral of its
value). -/
theorem claim8_decimal_boundary (account contract baseContract quoteContract : String)
    (contractOpt : Option String) (bid : Bool)
    (sk toUser tokenId amount orderId baseTokenId quoteAmount r s nonce : Nat) :
    IsCanonicalDecimal (registerClientReq account sk r s nonce).sigR r ∧
    IsCanonicalDecimal (registerClientReq account sk r s nonce).sigS s ∧
    IsCanonicalDecimal (registerClientReq account sk r s nonce).stark_key sk ∧
    IsCanonicalDecimal (registerClientReq account sk r s nonce).nonce nonce ∧
    IsCanonicalDecimal (mintReq toUser tokenId contract r s nonce).sigR r ∧
    IsCanonicalDecimal (mintReq toUser tokenId contract r s nonce).sigS s ∧
    IsCanonicalDecimal (mintReq toUser tokenId contract r s nonce).nonce nonce ∧
    IsCanonicalDecimal (transferReq sk toUser amount contract r s nonce).sigR r ∧
    IsCanonicalDecimal (transferReq sk toUser amount contract r s nonce).sigS s ∧
    IsCanonicalDecimal (transferReq sk toUser amount contract r s nonce).from_key sk ∧
    IsCanonicalDecimal (transferReq sk toUser amount contract r s nonce).nonce nonce ∧
    IsCanonicalDecimal (withdrawReq sk amount contractOpt account r s nonce).sigR r ∧
    IsCanonicalDecimal (withdrawReq sk amount contractOpt account r s nonce).sigS s ∧
    IsCanonicalDecimal (withdrawReq sk amount contractOpt account r s nonce).user sk ∧
    IsCanonicalDecimal (withdrawReq sk amount contractOpt account r s nonce).nonce nonce ∧
    IsCanonicalDecimal (createOrderReq sk orderId bid baseContract baseTokenId
      quoteContract quoteAmount r s).sigR r ∧
    IsCanonicalDecimal (createOrderReq sk orderId bid baseContract baseTokenId
      quoteContract quoteAmount r s).sigS s ∧
    IsCanonicalDecimal (createOrderReq sk orderId bid baseContract baseTokenId
      quoteContract quoteAmount r s).user sk ∧
    IsCanonicalDecimal (fulfillOrderReq sk r s nonce).sigR r ∧
    IsCanonicalDecimal (fulfillOrderReq sk r s nonce).sigS s ∧
    IsCanonicalDecimal (fulfillOrderReq sk r s nonce).user sk ∧
    IsCanonicalDecimal (fulfillOrderReq sk r s nonce).nonce nonce ∧
    IsCanonicalDecimal (cancelOrderReq r s nonce).sigR r ∧
    IsCanonicalDecimal (cancelOrderReq r s nonce).sigS s ∧
    IsCanonicalDecimal (cancelOrderReq r s nonce).nonceQuery nonce :=
  ⟨bnToString_canonical r, bnToString_canonical s, bnToString_canonical sk,
   bnToString_canonical nonce, bnToString_canonical r, bnToString_canonical s,
   bnToString_canonical nonce, bnToString_canonical r, bnToString_canonical s,
   bnToString_canonical sk, bnToString_canonical nonce, bnToString_canonical r,
   bnToString_canonical s, bnToString_canonical sk, bnToString_canonical nonce,
   bnToString_canonical r, bnToString_canonical s, bnToString_canonical sk,
   bnToString_canonical r, bnToString_canonical s, bnToString_canonical sk,
   bnToString_canonical nonce, bnToString_canonical r, bnToString_canonical s,
   bnToString_canonical nonce⟩

/-- Claim C9: in `registerCollection`, an omitted `background_image` or
`description` is folded into the signed message vector as `sha1n('')`
(JavaScript `x || ''` maps both `undefined` and `''` to `''`), so two
inputs that differ only in whether such an optional field is absent or
explicitly the empty string produce the identical signed message vector,
and hence the identical signature under any signer. -/
theorem claim9_optional_field_empty (address name symbol baseURI image : String)
    (bg1 bg2 d1 d2 : Option String)
    (hbg : bg1 = bg2 ∨ ((bg1 = none ∨ bg1 = some "") ∧ (bg2 = none ∨ bg2 = some "")))
    (hd : d1 = d2 ∨ ((d1 = none ∨ d1 = some "") ∧ (d2 = none ∨ d2 = some ""))) :
    registerCollectionVector address name symbol baseURI image bg1 d1 =
      registerCollectionVector address name symbol baseURI image bg2 d2 ∧
    ∀ curveSigner : List Int → Int × (Int × Int),
      (registerCollectionVector address name symbol baseURI image bg1 d1).map curveSigner =
      (registerCollectionVector address name symbol baseURI image bg2 d2).map curveSigner := by
  have hbg' : jsOrEmpty bg1 = jsOrEmpty bg2 := by
    rcases hbg with h | ⟨ha, hb⟩
    · rw [h]
    · rw [jsOrEmpty_of_absent_or_empty ha, jsOrEmpty_of_absent_or_empty hb]
  have hd' : jsOrEmpty d1 = jsOrEmpty d2 := by
    rcases hd with h | ⟨ha, hb⟩
    · rw [h]
    · rw [jsOrEmpty_of_absent_or_empty ha, jsOrEmpty_of_absent_or_empty hb]
  have hv : registerCollectionVector address name symbol baseURI image bg1 d1 =
      registerCollectionVector address name symbol baseURI image bg2 d2 := by
    unfold registerCollectionVector
    rw [hbg', hd']
  exact ⟨hv, fun curveSigner => by rw [hv]⟩

theorem claim9_witness :
    ((none : Option String) = some "" ∨
      (((none : Option String) = none ∨ (none : Option String) = some "") ∧
       (some "" = (none : Option String) ∨ some "" = some ""))) ∧
    ((some "d" : Option String) = some "d" ∨
      (((some "d" : Option String) = none ∨ (some "d" : Option String) = some "") ∧
       ((some "d" : Option String) = none ∨ (some "d" : Option String) = some ""))) ∧
    (registerCollectionVector "0x1" "n" "sy" "b" "i" none (some "d") =
       registerCollectionVector "0x1" "n" "sy" "b" "i" (some "") (some "d") ∧
     ∀ curveSigner : List Int → Int × (Int × Int),
       (registerCollectionVector "0x1" "n" "sy" "b" "i" none (some "d")).map curveSigner =
       (registerCollectionVector "0x1" "n" "sy" "b" "i" (some "") (some "d")).map curveSigner) :=
  ⟨Or.inr ⟨Or.inl rfl, Or.inr rfl⟩, Or.inl rfl,
    claim9_optional_field_empty "0x1" "n" "sy" "b" "i" none (some "") (some "d") (some "d")
      (Or.inr ⟨Or.inl rfl, Or.inr rfl⟩) (Or.inl rfl)⟩

/-- Claim C10: `parseN` accepts the bare prefix string `"0x"` (a `0x`
prefix with no digits after it) and returns the field element 0 rather
than failing with an error. -/
theorem claim10_bare_prefix_zero : parseN "0x" = some 0 := by decide

end Fluence
